import Mathlib

/-!
Verification of the text-analysis core of `first_class_analyzer.py`.

The embedding models Python strings as `List Char`. The external collaborators
(file system and network) are modelled as oracles `List Char → Option (List Char)`:
`none` means the read/fetch raises, `some c` means it returns the text `c`.
Fallible operations return `Except Unit _` (`.error` models a raised exception);
operations that can fall through every source-kind branch and return Python
`None` return an `Option`.

Python specifics mirrored here:
  * `str.split()` splits on runs of whitespace and never yields empty fragments;
  * `str.strip(string.punctuation)` removes leading and trailing characters of
    the fixed ASCII punctuation set;
  * `collections.Counter` iterates its keys in first-insertion
    (first-encountered) order, and `Counter.most_common(n)` as well as
    `sorted(..., reverse=True)` are stable: elements with equal keys keep
    their original relative order;
  * `float` arithmetic is modelled exactly over `ℚ`.
-/

namespace FCA

/-- Whitespace for Python `str.split()` (space, tab, carriage return, newline). -/
def isWs (c : Char) : Bool := c.isWhitespace

/-- The 32 characters of Python `string.punctuation` (escapes used for
quote, apostrophe, backslash, backtick and braces). -/
def punctChars : List Char :=
  ['!', '\x22', '#', '$', '%', '&', '\x27', '(', ')', '*', '+', ',', '-', '.', '/',
   ':', ';', '<', '=', '>', '?', '@', '[', '\\', ']', '^', '_', '\x60', '\x7b', '|', '\x7d', '~']

/-- Membership in Python's `string.punctuation`, the character set used by
`word.strip(string.punctuation)`. -/
def isPunct (c : Char) : Bool := punctChars.contains c

/-- Python `word.strip(string.punctuation)`: remove leading and trailing
punctuation characters. -/
def stripPunct (l : List Char) : List Char :=
  List.rdropWhile isPunct (l.dropWhile isPunct)

/-- Helper for `splitWs`; `acc` holds the current fragment reversed. -/
def splitWsAux : List Char → List Char → List (List Char)
  | [], acc => if acc.isEmpty then [] else [acc.reverse]
  | c :: cs, acc =>
    if isWs c then
      if acc.isEmpty then splitWsAux cs [] else acc.reverse :: splitWsAux cs []
    else splitWsAux cs (c :: acc)

/-- Python `str.split()` with no argument: split on runs of whitespace,
dropping empty fragments. -/
def splitWs (l : List Char) : List (List Char) := splitWsAux l []

/-- Index of the first occurrence of `x` (length of the list if absent). -/
def idxOf [DecidableEq α] (x : α) : List α → Nat
  | [] => 0
  | a :: l => if a = x then 0 else idxOf x l + 1

/-- Fuel-driven helper for `uniqueFirst` (structural recursion on the fuel
keeps the function kernel-reducible). -/
def uniqueFirstF [DecidableEq α] : Nat → List α → List α
  | _, [] => []
  | 0, _ :: _ => []
  | n + 1, a :: l => a :: uniqueFirstF n (l.filter (fun b => decide (b ≠ a)))

/-- The distinct elements of a list in first-encountered order: the key order
of a Python `Counter` built from the stream. -/
def uniqueFirst [DecidableEq α] (l : List α) : List α := uniqueFirstF l.length l

/-- `Counter(stream).items()`: each distinct element paired with its count,
in first-encountered order. -/
def counterItems [DecidableEq α] (l : List α) : List (α × Nat) :=
  (uniqueFirst l).map (fun x => (x, l.count x))

/-- Comparison used by `sorted(items, key=lambda item: item[1], reverse=True)`
and `Counter.most_common`: `p` may come before `q` iff `q`'s count is at most
`p`'s count. -/
def countGE (p q : α × Nat) : Prop := q.2 ≤ p.2

instance : DecidableRel (@countGE α) := fun p q => Nat.decLe q.2 p.2

instance : IsTotal (α × Nat) countGE :=
  ⟨fun p q => (Nat.le_total p.2 q.2).symm.imp (fun h => h) (fun h => h)⟩

instance : IsTrans (α × Nat) countGE :=
  ⟨fun _ _ _ h1 h2 => Nat.le_trans h2 h1⟩

/-- Python's stable descending-by-count sort of `(item, count)` pairs.
`List.insertionSort` inserts every element before the later-sorted elements it
ties with, so it is stable, like CPython's `sorted`. -/
def sortByCountDesc (l : List (α × Nat)) : List (α × Nat) :=
  List.insertionSort countGE l

/-- `Counter(stream).most_common(n)`: the `n` entries with the largest counts,
stable among ties (CPython documents `nlargest` as
`sorted(iterable, key=key, reverse=True)[:n]`). -/
def mostCommon [DecidableEq α] (n : Nat) (l : List α) : List (α × Nat) :=
  (sortByCountDesc (counterItems l)).take n

/-- Resolved `_src_type` after `__init__` (one of `'text'`, `'path'`, `'url'`). -/
inductive SrcKind
  | text
  | path
  | url
deriving DecidableEq

/-- The `src_type` constructor argument: the three recognized kinds,
`'discover'`, or any other string (which makes `__init__` raise `ValueError`). -/
inductive DeclaredKind
  | text
  | path
  | url
  | discover
  | unsupported
deriving DecidableEq

/-- Python `src.startswith(p)`. -/
def startsWithL (p l : List Char) : Bool := decide (l.take p.length = p)

/-- Python `src.endswith(s)`. -/
def endsWithL (s l : List Char) : Bool := decide (l.reverse.take s.length = s.reverse)

/-- The `'discover'` classification of `__init__` (lines 27–33):
`src.startswith('http')` ⇒ `'url'`; else `src.endswith('.txt')` or a `/` or a
`\` in `src` ⇒ `'path'`; else `'text'`. -/
def discoverKind (src : List Char) : SrcKind :=
  if startsWithL ("http".toList) src then .url
  else if endsWithL (".txt".toList) src || src.contains '/' || src.contains '\\' then .path
  else .text

/-- State of a constructed `Analyzer` (fields `src`, `_src_type`, `_content`,
`_orig_content`).  After `__init__`, `_content` is never `None`, and line 44
makes `_orig_content` equal to the resolved `_content` (the `orig_content`
constructor argument is dead). -/
structure Analyzer where
  src : List Char
  srcType : SrcKind
  content : List Char
  origContent : List Char
deriving DecidableEq

/-- `Analyzer.__init__` (lines 19–45): resolve the declared kind (running the
`'discover'` heuristics first), obtain the content from the matching
collaborator, and store it as both `_content` and `_orig_content`.
`none` models a raised exception (`ValueError` for an unsupported kind, or a
fetch/read failure). -/
def mkAnalyzer (fs net : List Char → Option (List Char)) (src : List Char)
    (src_type : DeclaredKind) : Option Analyzer :=
  let resolved : Option SrcKind :=
    match src_type with
    | .discover => some (discoverKind src)
    | .text => some .text
    | .path => some .path
    | .url => some .url
    | .unsupported => none
  match resolved with
  | none => none
  | some k =>
    match k with
    | .url => (net src).map (fun c => ⟨src, .url, c, c⟩)
    | .path => (fs src).map (fun c => ⟨src, .path, c, c⟩)
    | .text => some ⟨src, .text, src, src⟩

/-- `Analyzer.reset_content` (lines 72–75): restore `_content` from
`_orig_content`. -/
def Analyzer.reset_content (a : Analyzer) : Analyzer :=
  { a with content := a.origContent }

/-- `Analyzer._words` (lines 77–87): split `_orig_content` on whitespace and
strip punctuation from both ends of each fragment, lowercasing unless
`casesensitive`.  (The `_content is None` guard is never taken after
`__init__`, since every constructor branch assigns a string.) -/
def Analyzer.wordsOf (a : Analyzer) (casesensitive : Bool) : List (List Char) :=
  let words := splitWs a.origContent
  if !casesensitive then
    words.map (fun w => (stripPunct w).map Char.toLower)
  else
    words.map stripPunct

/-- Shared body of the `'text'` and `'path'` branches of `common_words`
(lines 98–103 and 105–110 are identical): filter the case-insensitive tokens
by length, count, take the `count` most common, and uppercase for display.
The method's own `casesensitive` argument is ignored (both branches pass
`casesensitive=False`). -/
def commonWordsList (a : Analyzer) (minlen maxlen count : Nat) : List (List Char × Nat) :=
  let words := a.wordsOf false
  let filtered_words := words.filter (fun w => decide (minlen ≤ w.length) && decide (w.length ≤ maxlen))
  let most_common_words := mostCommon count filtered_words
  most_common_words.map (fun p => (p.1.map Char.toUpper, p.2))

/-- `Analyzer.common_words` (lines 89–112); falls through to `return None`
when `_src_type` is `'url'`. -/
def Analyzer.common_words (a : Analyzer) (minlen maxlen count : Nat)
    (casesensitive : Bool) : Option (List (List Char × Nat)) :=
  match a.srcType with
  | .text => some (commonWordsList a minlen maxlen count)
  | .path => some (commonWordsList a minlen maxlen count)
  | .url => none

/-- The character stream counted by the `'text'` branch of
`char_distribution` (lines 117–118): `_orig_content`, lowercased unless
`casesensitive`, restricted to alphabetic characters when `letters_only`. -/
def charStream (a : Analyzer) (casesensitive letters_only : Bool) : List Char :=
  (if casesensitive then a.origContent else a.origContent.map Char.toLower).filter
    (fun c => !letters_only || c.isAlpha)

/-- The `'text'` branch of `char_distribution` (lines 116–120): count the
characters of `charStream`, sorted descending by count. -/
def charDistText (a : Analyzer) (casesensitive letters_only : Bool) : List (Char × Nat) :=
  sortByCountDesc (counterItems (charStream a casesensitive letters_only))

/-- The `'path'` branch of `char_distribution` (lines 122–127), applied to the
re-read file content.  Note the two slips mirrored from the source: the filter
is `letters_only or char.isalpha()` (inverted with respect to the text
branch), and the sort key is `lambda item: [1]` — a constant — so Python's
stable sort returns the `Counter` items unchanged, in insertion order. -/
def charDistPath (content0 : List Char) (casesensitive letters_only : Bool) : List (Char × Nat) :=
  let content := if casesensitive then content0 else content0.map Char.toLower
  counterItems (content.filter (fun c => letters_only || c.isAlpha))

/-- `Analyzer.char_distribution` (lines 114–129); re-reads the file in the
`'path'` branch (raising if it fails) and falls through to `return None` for
`'url'`. -/
def Analyzer.char_distribution (fs : List Char → Option (List Char)) (a : Analyzer)
    (casesensitive letters_only : Bool) : Except Unit (Option (List (Char × Nat))) :=
  match a.srcType with
  | .text => .ok (some (charDistText a casesensitive letters_only))
  | .path =>
    match fs a.src with
    | none => .error ()
    | some content0 => .ok (some (charDistPath content0 casesensitive letters_only))
  | .url => .ok none

/-- `Analyzer.word_count` (lines 195–208): `len(self._words())`.  The `'path'`
and `'url'` branches re-read/re-fetch the source into `_content` first (the
count itself still comes from `_orig_content`, which `_words` splits). -/
def Analyzer.word_count (fs net : List Char → Option (List Char)) (a : Analyzer) :
    Except Unit Nat :=
  match a.srcType with
  | .text => .ok (a.wordsOf false).length
  | .path =>
    match fs a.src with
    | none => .error ()
    | some _ => .ok (a.wordsOf false).length
  | .url =>
    match net a.src with
    | none => .error ()
    | some _ => .ok (a.wordsOf false).length

/-- `Analyzer.distinct_word_count` (lines 210–214): `len(set(self._words(casesensitive=False)))`
for `'text'` and `'path'`; falls through to `None` for `'url'`. -/
def Analyzer.distinct_word_count (a : Analyzer) : Option Nat :=
  match a.srcType with
  | .text => some (uniqueFirst (a.wordsOf false)).length
  | .path => some (uniqueFirst (a.wordsOf false)).length
  | .url => none

/-- Python `round(x, 2)`, modelled over `ℚ`: round `q * 100` to the nearest
integer and divide back.  (`Rat.floor` is used rather than `⌊·⌋` so the
definition reduces in the kernel; `Rat.floor_def` identifies them.) -/
def round2 (q : ℚ) : ℚ := (Rat.floor (q * 100 + 1 / 2) : ℚ) / 100

/-- `Analyzer.avg_word_length` (lines 177–193): mean token length rounded to
two decimals; both the `'text'` and `'path'` branches fall through to
`return 0.0` when the token list is empty, and the `'url'` kind always falls
through to `0.0`.  (The `'path'` branch's `sum(len(words) for words in words)`
shadows `words` with each element, so it is the same sum of token lengths.) -/
def Analyzer.avg_word_length (a : Analyzer) : ℚ :=
  match a.srcType with
  | .text =>
    let words := a.wordsOf false
    if words.isEmpty then 0
    else round2 ((words.map (fun w => (w.length : ℚ))).sum / (words.length : ℚ))
  | .path =>
    let words := a.wordsOf false
    if words.isEmpty then 0
    else round2 ((words.map (fun w => (w.length : ℚ))).sum / (words.length : ℚ))
  | .url => 0

/-- Path of the positive-word lexicon opened by `positivity` (line 231). -/
def posListPath : List Char := "fca/positive.txt".toList

/-- Path of the negative-word lexicon opened by `positivity` (line 232). -/
def negListPath : List Char := "fca/negative.txt".toList

/-- `Analyzer.positivity` (lines 227–242): read both lexicon files (raising if
either is missing), lowercase-split them into sets, re-strip and re-lowercase
the tokens (line 238 reprocesses `self._words()`), tally `+1`/`-1`/`0` per
token, and divide by `word_count` (itself re-resolving the source) times 1000,
guarding `word_count == 0`.  Set membership of Python `set(...)` is list
membership of the split word list. -/
def Analyzer.positivity (fs net : List Char → Option (List Char)) (a : Analyzer) :
    Except Unit ℚ :=
  match fs posListPath, fs negListPath with
  | some posRaw, some negRaw =>
    let positive_words := splitWs (posRaw.map Char.toLower)
    let negative_words := splitWs (negRaw.map Char.toLower)
    let words := (a.wordsOf false).map (fun w => (stripPunct w).map Char.toLower)
    let tally : Int := (words.map (fun w =>
      if w ∈ positive_words then (1 : Int)
      else if w ∈ negative_words then -1 else 0)).sum
    match a.word_count fs net with
    | .error e => .error e
    | .ok wc => .ok (if 0 < wc then (tally : ℚ) / (wc : ℚ) * 1000 else 0)
  | _, _ => .error ()

/-- Decidable equality for modelled raise-or-return results. -/
instance {ε α : Type} [DecidableEq ε] [DecidableEq α] : DecidableEq (Except ε α) := fun x y =>
  match x, y with
  | .error e, .error f =>
    if h : e = f then .isTrue (by rw [h]) else .isFalse (by intro hh; cases hh; exact h rfl)
  | .ok a, .ok b =>
    if h : a = b then .isTrue (by rw [h]) else .isFalse (by intro hh; cases hh; exact h rfl)
  | .error _, .ok _ => .isFalse (by intro hh; cases hh)
  | .ok _, .error _ => .isFalse (by intro hh; cases hh)

/-! ### Concrete fixtures (oracles and analyzers used at specific inputs) -/

/-- File-system oracle with no readable files. -/
def fsEmpty : List Char → Option (List Char) := fun _ => none

/-- Network oracle with no reachable URLs. -/
def netEmpty : List Char → Option (List Char) := fun _ => none

/-- File system holding a single file `f.txt` with content `abb`. -/
def fsAbb : List Char → Option (List Char) :=
  fun s => if s = "f.txt".toList then some "abb".toList else none

/-- File system holding a single file `f.txt` with content `a1`. -/
def fsA1 : List Char → Option (List Char) :=
  fun s => if s = "f.txt".toList then some "a1".toList else none

/-- Network holding a single page `http://x` with body `abc`. -/
def netAbc : List Char → Option (List Char) :=
  fun s => if s = "http://x".toList then some "abc".toList else none

/-- File system holding the two lexicon files: the positive list is `good`,
the negative list is `bad`. -/
def fsLex : List Char → Option (List Char) :=
  fun s =>
    if s = posListPath then some "good".toList
    else if s = negListPath then some "bad".toList else none

/-- The inline-text analyzer on content `s`, as produced by
`Analyzer(s, src_type='text')`. -/
def textAnalyzer (s : List Char) : Analyzer := ⟨s, .text, s, s⟩

/-- The analyzer produced by `Analyzer('f.txt', src_type='path')` over `fsAbb`. -/
def pathAnalyzerAbb : Analyzer := ⟨"f.txt".toList, .path, "abb".toList, "abb".toList⟩

/-- The analyzer produced by `Analyzer('f.txt', src_type='path')` over `fsA1`. -/
def pathAnalyzerA1 : Analyzer := ⟨"f.txt".toList, .path, "a1".toList, "a1".toList⟩

/-- The analyzer produced by `Analyzer('http://x', src_type='url')` over `netAbc`. -/
def urlAnalyzerAbc : Analyzer := ⟨"http://x".toList, .url, "abc".toList, "abc".toList⟩

/-! ### Library lemmas about the counting and sorting helpers -/

theorem idxOf_cons_self [DecidableEq α] (a : α) (l : List α) : idxOf a (a :: l) = 0 := by
  simp [idxOf]

theorem idxOf_cons_ne [DecidableEq α] {a b : α} (l : List α) (h : b ≠ a) :
    idxOf a (b :: l) = idxOf a l + 1 := by
  simp [idxOf, h]

theorem uniqueFirstF_congr [DecidableEq α] :
    ∀ (n m : Nat) (l : List α), l.length ≤ n → l.length ≤ m →
      uniqueFirstF n l = uniqueFirstF m l
  | n, m, [], _, _ => by cases n <;> cases m <;> rfl
  | 0, _, _ :: _, hn, _ => absurd hn (by simp)
  | _ + 1, 0, _ :: _, _, hm => absurd hm (by simp)
  | n + 1, m + 1, a :: t, hn, hm => by
    simp only [uniqueFirstF]
    congr 1
    exact uniqueFirstF_congr n m _
      (le_trans (t.length_filter_le _) (Nat.succ_le_succ_iff.mp hn))
      (le_trans (t.length_filter_le _) (Nat.succ_le_succ_iff.mp hm))

theorem uniqueFirst_nil [DecidableEq α] : uniqueFirst ([] : List α) = [] := rfl

theorem uniqueFirst_cons [DecidableEq α] (a : α) (l : List α) :
    uniqueFirst (a :: l) = a :: uniqueFirst (l.filter (fun b => decide (b ≠ a))) := by
  show uniqueFirstF (l.length + 1) (a :: l) = _
  simp only [uniqueFirstF]
  congr 1
  exact uniqueFirstF_congr _ _ _ (l.length_filter_le _) le_rfl

theorem mem_uniqueFirst [DecidableEq α] :
    ∀ (l : List α) (x : α), x ∈ uniqueFirst l → x ∈ l
  | [], _, h => by simp [uniqueFirst_nil] at h
  | a :: t, x, h => by
    rw [uniqueFirst_cons] at h
    rcases List.mem_cons.mp h with h | h
    · exact h ▸ List.mem_cons_self a t
    · exact List.mem_cons_of_mem a
        (List.mem_filter.mp (mem_uniqueFirst _ x h)).1
termination_by l => l.length
decreasing_by
  simp only [List.length_cons]
  exact Nat.lt_succ_of_le (List.length_filter_le _ _)

theorem nodup_uniqueFirst [DecidableEq α] :
    ∀ (l : List α), (uniqueFirst l).Nodup
  | [] => by simp [uniqueFirst_nil]
  | a :: t => by
    rw [uniqueFirst_cons]
    refine List.Pairwise.cons (fun y hy => ?_) (nodup_uniqueFirst _)
    have hne := (List.mem_filter.mp (mem_uniqueFirst _ y hy)).2
    exact (of_decide_eq_true hne).symm
termination_by l => l.length
decreasing_by
  simp only [List.length_cons]
  exact Nat.lt_succ_of_le (List.length_filter_le _ _)

theorem length_uniqueFirst_le [DecidableEq α] :
    ∀ (l : List α), (uniqueFirst l).length ≤ l.length
  | [] => by simp [uniqueFirst_nil]
  | a :: t => by
    rw [uniqueFirst_cons]
    simpa using Nat.succ_le_succ
      (le_trans (length_uniqueFirst_le _) (t.length_filter_le _))
termination_by l => l.length
decreasing_by
  simp only [List.length_cons]
  exact Nat.lt_succ_of_le (List.length_filter_le _ _)

theorem idxOf_lt_of_filter_idxOf_lt [DecidableEq α] {p : α → Bool} :
    ∀ (l : List α) (x y : α), p x → p y → y ∈ l →
      idxOf x (l.filter p) < idxOf y (l.filter p) → idxOf x l < idxOf y l
  | [], _, _, _, _, hy, _ => absurd hy (List.not_mem_nil _)
  | b :: t, x, y, hx, hy, hyl, h => by
    by_cases hpb : p b
    · rw [List.filter_cons_of_pos hpb] at h
      by_cases hxb : b = x
      · subst hxb
        rw [idxOf_cons_self] at h ⊢
        by_cases hyb : b = y
        · subst hyb; rw [idxOf_cons_self] at h; exact absurd h (Nat.lt_irrefl 0)
        · rw [idxOf_cons_ne _ hyb]; exact Nat.succ_pos _
      · rw [idxOf_cons_ne _ hxb] at h ⊢
        by_cases hyb : b = y
        · subst hyb; rw [idxOf_cons_self] at h; exact absurd h (Nat.not_lt_zero _)
        · rw [idxOf_cons_ne _ hyb] at h ⊢
          have hyt : y ∈ t := (List.mem_cons.mp hyl).resolve_left (fun hh => hyb hh.symm)
          exact Nat.succ_lt_succ
            (idxOf_lt_of_filter_idxOf_lt t x y hx hy hyt (Nat.succ_lt_succ_iff.mp h))
    · rw [List.filter_cons_of_neg hpb] at h
      have hxb : b ≠ x := fun hh => hpb (hh ▸ hx)
      have hyb : b ≠ y := fun hh => hpb (hh ▸ hy)
      have hyt : y ∈ t := (List.mem_cons.mp hyl).resolve_left (fun hh => hyb hh.symm)
      rw [idxOf_cons_ne _ hxb, idxOf_cons_ne _ hyb]
      exact Nat.succ_lt_succ (idxOf_lt_of_filter_idxOf_lt t x y hx hy hyt h)

/-- The distinct elements are listed in order of first occurrence: earlier
entries of `uniqueFirst l` occur for the first time in `l` strictly earlier. -/
theorem pairwise_idxOf_uniqueFirst [DecidableEq α] :
    ∀ (l : List α), (uniqueFirst l).Pairwise (fun x y => idxOf x l < idxOf y l)
  | [] => by simp [uniqueFirst_nil]
  | a :: t => by
    rw [uniqueFirst_cons]
    refine List.Pairwise.cons (fun y hy => ?_) ?_
    · have hmem := List.mem_filter.mp (mem_uniqueFirst _ y hy)
      have hya : y ≠ a := by simpa using hmem.2
      rw [idxOf_cons_self, idxOf_cons_ne _ (fun hh => hya hh.symm)]
      exact Nat.succ_pos _
    · refine ((pairwise_idxOf_uniqueFirst (t.filter (fun b => decide (b ≠ a)))).imp_of_mem
        (fun {x y} hx hy hlt => ?_))
      have hmx := List.mem_filter.mp (mem_uniqueFirst _ x hx)
      have hmy := List.mem_filter.mp (mem_uniqueFirst _ y hy)
      have hxa : x ≠ a := by simpa using hmx.2
      have hya : y ≠ a := by simpa using hmy.2
      rw [idxOf_cons_ne _ (fun hh => hxa hh.symm), idxOf_cons_ne _ (fun hh => hya hh.symm)]
      exact Nat.succ_lt_succ
        (idxOf_lt_of_filter_idxOf_lt t x y hmx.2 hmy.2 hmy.1 hlt)
termination_by l => l.length
decreasing_by
  simp only [List.length_cons]
  exact Nat.lt_succ_of_le (List.length_filter_le _ _)

/-- Stability of `orderedInsert` for relations that hold vacuously across
strictly different counts. -/
theorem pairwise_orderedInsert_ties {α} {T : α × Nat → α × Nat → Prop}
    (hT : ∀ p q : α × Nat, q.2 < p.2 → T p q) :
    ∀ (x : α × Nat) (l : List (α × Nat)), (∀ z ∈ l, T x z) → l.Pairwise T →
      (List.orderedInsert countGE x l).Pairwise T
  | x, [], _, _ => List.pairwise_singleton _ _
  | x, y :: ys, h1, h2 => by
    by_cases hc : countGE x y
    · rw [List.orderedInsert_of_le _ _ hc]
      exact List.Pairwise.cons h1 h2
    · have hxy : x.2 < y.2 := Nat.lt_of_not_le hc
      simp only [List.orderedInsert, if_neg hc]
      refine List.Pairwise.cons (fun z hz => ?_) ?_
      · rcases (List.mem_orderedInsert countGE).mp hz with rfl | hz
        · exact hT y z hxy
        · exact (List.pairwise_cons.mp h2).1 z hz
      · exact pairwise_orderedInsert_ties hT x ys
          (fun z hz => h1 z (List.mem_cons_of_mem _ hz))
          (List.pairwise_cons.mp h2).2

/-- Stability of the descending-by-count sort: any relation that already holds
pairwise on the input and is vacuous across different counts still holds
pairwise on the sorted output.  Instantiated with
`T p q := p.2 = q.2 → (first-occurrence of p before q)`, this is the
"ties in first-encountered order" guarantee. -/
theorem pairwise_sortByCountDesc_ties {α} {T : α × Nat → α × Nat → Prop}
    (hT : ∀ p q : α × Nat, q.2 < p.2 → T p q) :
    ∀ l : List (α × Nat), l.Pairwise T → (sortByCountDesc l).Pairwise T
  | [], _ => by simp [sortByCountDesc, List.insertionSort]
  | x :: xs, h => by
    have hp := List.pairwise_cons.mp h
    have hperm := List.perm_insertionSort countGE xs
    exact pairwise_orderedInsert_ties hT x (List.insertionSort countGE xs)
      (fun z hz => hp.1 z (hperm.mem_iff.mp hz))
      (pairwise_sortByCountDesc_ties hT xs hp.2)

/-- The sort is descending (non-strictly) in the counts. -/
theorem sorted_sortByCountDesc {α} (l : List (α × Nat)) :
    (sortByCountDesc l).Pairwise countGE :=
  List.sorted_insertionSort countGE l

theorem perm_sortByCountDesc {α} (l : List (α × Nat)) :
    List.Perm (sortByCountDesc l) l :=
  List.perm_insertionSort countGE l

/-! ### Punctuation stripping and case folding -/

theorem head_stripPunct_not (l : List Char) (h : stripPunct l ≠ []) :
    isPunct ((stripPunct l).head h) = false := by
  unfold stripPunct at *
  set m := l.dropWhile isPunct with hm
  have hpre : List.rdropWhile isPunct m <+: m := List.rdropWhile_prefix _ _
  have hmne : m ≠ [] := hpre.ne_nil h
  rw [hpre.head h]
  exact List.head_dropWhile_not isPunct l (by rwa [← hm])

theorem getLast_stripPunct_not (l : List Char) (h : stripPunct l ≠ []) :
    isPunct ((stripPunct l).getLast h) = false := by
  have := List.rdropWhile_last_not isPunct (l.dropWhile isPunct) h
  simpa using this

theorem dropWhile_eq_self_of_head (l : List Char)
    (h : ∀ hne : l ≠ [], isPunct (l.head hne) = false) :
    l.dropWhile isPunct = l := by
  cases l with
  | nil => rfl
  | cons a t =>
    have ha := h (List.cons_ne_nil a t)
    simp only [List.head_cons] at ha
    rw [List.dropWhile_cons, if_neg (by simp [ha])]

theorem stripPunct_idem (l : List Char) : stripPunct (stripPunct l) = stripPunct l := by
  conv_lhs => rw [stripPunct]
  rw [dropWhile_eq_self_of_head _ (fun hne => head_stripPunct_not l hne)]
  rw [List.rdropWhile_eq_self_iff.mpr]
  intro hne
  simp [getLast_stripPunct_not l hne]

theorem isPunct_upper_false (c : Char) (h1 : 65 ≤ c.toNat) (h2 : c.toNat ≤ 90) :
    isPunct c = false := by
  by_contra hne
  have htrue : isPunct c = true := by
    cases hval : isPunct c
    · exact absurd hval hne
    · rfl
  have hmem : c ∈ punctChars := List.mem_of_elem_eq_true htrue
  fin_cases hmem <;>
    first
      | exact absurd h1 (by decide)
      | exact absurd h2 (by decide)

theorem lower_ofNat_facts (n : Nat) (h1 : 65 ≤ n) (h2 : n ≤ 90) :
    isPunct (Char.ofNat (n + 32)) = false ∧
      Char.toLower (Char.ofNat (n + 32)) = Char.ofNat (n + 32) := by
  interval_cases n <;> exact ⟨by decide, by decide⟩

theorem toLower_eq_of_upper (c : Char) (h : 65 ≤ c.toNat ∧ c.toNat ≤ 90) :
    Char.toLower c = Char.ofNat (c.toNat + 32) := by
  show (if c.toNat ≥ 65 ∧ c.toNat ≤ 90 then Char.ofNat (c.toNat + 32) else c) = _
  rw [if_pos h]

theorem toLower_eq_of_not_upper (c : Char) (h : ¬(65 ≤ c.toNat ∧ c.toNat ≤ 90)) :
    Char.toLower c = c := by
  show (if c.toNat ≥ 65 ∧ c.toNat ≤ 90 then Char.ofNat (c.toNat + 32) else c) = _
  rw [if_neg h]

theorem isPunct_toLower (c : Char) : isPunct (Char.toLower c) = isPunct c := by
  by_cases h : 65 ≤ c.toNat ∧ c.toNat ≤ 90
  · rw [toLower_eq_of_upper c h, (lower_ofNat_facts c.toNat h.1 h.2).1,
      isPunct_upper_false c h.1 h.2]
  · rw [toLower_eq_of_not_upper c h]

theorem toLower_toLower (c : Char) : Char.toLower (Char.toLower c) = Char.toLower c := by
  by_cases h : 65 ≤ c.toNat ∧ c.toNat ≤ 90
  · rw [toLower_eq_of_upper c h]
    exact (lower_ofNat_facts c.toNat h.1 h.2).2
  · rw [toLower_eq_of_not_upper c h, toLower_eq_of_not_upper c h]

theorem dropWhile_isPunct_map_toLower (l : List Char) :
    (l.map Char.toLower).dropWhile isPunct = (l.dropWhile isPunct).map Char.toLower := by
  rw [List.dropWhile_map]
  have hfun : (isPunct ∘ Char.toLower) = isPunct := funext isPunct_toLower
  rw [hfun]

theorem rdropWhile_isPunct_map_toLower (l : List Char) :
    List.rdropWhile isPunct (l.map Char.toLower)
      = (List.rdropWhile isPunct l).map Char.toLower := by
  unfold List.rdropWhile
  rw [← List.map_reverse, dropWhile_isPunct_map_toLower, List.map_reverse]

theorem stripPunct_map_toLower (l : List Char) :
    stripPunct (l.map Char.toLower) = (stripPunct l).map Char.toLower := by
  unfold stripPunct
  rw [dropWhile_isPunct_map_toLower, rdropWhile_isPunct_map_toLower]

/-- Re-stripping and re-lowercasing an already stripped-and-lowercased token
(line 238 of the source) is the identity. -/
theorem strip_lower_strip_lower (w : List Char) :
    (stripPunct ((stripPunct w).map Char.toLower)).map Char.toLower
      = (stripPunct w).map Char.toLower := by
  rw [stripPunct_map_toLower, stripPunct_idem, List.map_map]
  exact List.map_congr_left (fun c _ => toLower_toLower c)

/-- The token list that `positivity` actually scores (line 238) is just
`_words(casesensitive=False)` again. -/
theorem positivity_words_eq (a : Analyzer) :
    (a.wordsOf false).map (fun w => (stripPunct w).map Char.toLower) = a.wordsOf false := by
  unfold Analyzer.wordsOf
  simp only [Bool.not_false, if_true, List.map_map]
  exact List.map_congr_left (fun w _ => strip_lower_strip_lower w)

/-! ### Facts about the analyzer operations -/

/-- Stripping never drops a fragment: `_words` yields exactly one token per
whitespace-delimited fragment of `_orig_content`. -/
theorem wordsOf_length (a : Analyzer) (cs : Bool) :
    (a.wordsOf cs).length = (splitWs a.origContent).length := by
  unfold Analyzer.wordsOf
  cases cs <;> simp

/-- Whenever `word_count` returns, it returns the number of
whitespace-delimited fragments of `_orig_content`. -/
theorem word_count_ok (fs net : List Char → Option (List Char)) (a : Analyzer)
    (wc : Nat) (h : a.word_count fs net = .ok wc) :
    wc = (splitWs a.origContent).length := by
  unfold Analyzer.word_count at h
  cases hk : a.srcType <;> rw [hk] at h
  · cases h; exact wordsOf_length a false
  · cases hfs : fs a.src <;> rw [hfs] at h
    · cases h
    · cases h; exact wordsOf_length a false
  · cases hnet : net a.src <;> rw [hnet] at h
    · cases h
    · cases h; exact wordsOf_length a false

theorem mem_counterItems_fst [DecidableEq α] {l : List α} {p : α × Nat}
    (h : p ∈ counterItems l) : p.1 ∈ l := by
  obtain ⟨x, hx, rfl⟩ := List.mem_map.mp h
  exact mem_uniqueFirst l x hx

theorem nodup_counterItems_fst [DecidableEq α] (l : List α) :
    ((counterItems l).map Prod.fst).Nodup := by
  unfold counterItems
  rw [List.map_map]
  show (List.map id (uniqueFirst l)).Nodup
  rw [List.map_id]
  exact nodup_uniqueFirst l

/-- The counter lists its keys in order of first occurrence. -/
theorem pairwise_idx_counterItems [DecidableEq α] (l : List α) :
    (counterItems l).Pairwise (fun p q => idxOf p.1 l < idxOf q.1 l) := by
  unfold counterItems
  rw [List.pairwise_map]
  exact pairwise_idxOf_uniqueFirst l

/-- Sorted output of the text-branch character distribution: descending
counts, ties in first-occurrence order, and distinct keys. -/
theorem sortByCountDesc_facts [DecidableEq α] (l : List α) :
    (sortByCountDesc (counterItems l)).Pairwise countGE ∧
    ((sortByCountDesc (counterItems l)).map Prod.fst).Nodup ∧
    (sortByCountDesc (counterItems l)).Pairwise
      (fun p q => p.2 = q.2 → idxOf p.1 l < idxOf q.1 l) ∧
    (∀ p ∈ sortByCountDesc (counterItems l), p.1 ∈ l) := by
  refine ⟨sorted_sortByCountDesc _, ?_, ?_, ?_⟩
  · exact (((perm_sortByCountDesc (counterItems l)).map Prod.fst).nodup_iff).mpr
      (nodup_counterItems_fst l)
  · have base : (counterItems l).Pairwise
        (fun p q => p.2 = q.2 → idxOf p.1 l < idxOf q.1 l) := by
      refine (pairwise_idx_counterItems l).imp ?_
      intro p q h _
      exact h
    exact pairwise_sortByCountDesc_ties
      (fun p q hlt heq => absurd (heq ▸ hlt) (Nat.lt_irrefl _)) _ base
  · intro p hp
    exact mem_counterItems_fst ((perm_sortByCountDesc (counterItems l)).mem_iff.mp hp)

/-- `most_common(n)` facts: at most `n` entries, descending counts, and every
key comes from the counted list. -/
theorem mostCommon_facts [DecidableEq α] (n : Nat) (l : List α) :
    (mostCommon n l).length ≤ n ∧
    (mostCommon n l).Pairwise countGE ∧
    (∀ p ∈ mostCommon n l, p.1 ∈ l) := by
  refine ⟨?_, ?_, ?_⟩
  · rw [mostCommon, List.length_take]
    exact Nat.min_le_left _ _
  · exact (sortByCountDesc_facts l).1.sublist (List.take_sublist _ _)
  · intro p hp
    exact (sortByCountDesc_facts l).2.2.2 p (List.mem_of_mem_take hp)

/-- The tally of `positivity` is the number of tokens found in the positive
lexicon minus the number found in the negative lexicon, provided the two
lexicons are disjoint. -/
theorem tally_eq_counts (pos neg : List (List Char))
    (hdisj : ∀ w, w ∈ pos → w ∉ neg) :
    ∀ ws : List (List Char),
      (ws.map (fun w => if w ∈ pos then (1 : Int) else if w ∈ neg then -1 else 0)).sum
        = (ws.countP (fun w => decide (w ∈ pos)) : Int)
          - (ws.countP (fun w => decide (w ∈ neg)) : Int)
  | [] => by simp
  | w :: t => by
    have ih := tally_eq_counts pos neg hdisj t
    simp only [List.map_cons, List.sum_cons, List.countP_cons, ih]
    by_cases hp : w ∈ pos
    · have hn : w ∉ neg := hdisj w hp
      simp [hp, hn]
      ring
    · by_cases hn : w ∈ neg
      · simp [hp, hn]
        ring
      · simp [hp, hn]

/-! ### Claims -/

/-- **C3, counterexample.**  Claim C3 states that whitespace-delimited
fragments consisting entirely of punctuation are dropped, so that no statistic
ever counts an empty-string token.  On the inline text `"!! hi"` the fragment
`!!` strips to the empty token and is kept: `_words` returns `['', 'hi']`,
`distinct_word_count` counts the empty token (2, not 1), and
`common_words(minlen=0)` lists it. -/
theorem C3_empty_token_counterexample :
    mkAnalyzer fsEmpty netEmpty ("!! hi".toList) .text = some (textAnalyzer ("!! hi".toList)) ∧
    (textAnalyzer ("!! hi".toList)).wordsOf false = [[], ['h', 'i']] ∧
    [] ∈ (textAnalyzer ("!! hi".toList)).wordsOf false ∧
    (textAnalyzer ("!! hi".toList)).distinct_word_count = some 2 ∧
    (textAnalyzer ("!! hi".toList)).common_words 0 100 10 false
      = some [([], 1), (['H', 'I'], 1)] :=
  ⟨by decide, by decide, by decide, by decide, by decide⟩

/-- **C3, amended.**  The tokenizer drops nothing: `_words` produces exactly
one token per whitespace-delimited fragment of the content, for both values of
`casesensitive`, so fragments consisting entirely of punctuation survive as
empty-string tokens (which the statistics then count, as the counterexample
shows concretely). -/
theorem C3_no_fragment_dropped (a : Analyzer) (cs : Bool) :
    (a.wordsOf cs).length = (splitWs a.origContent).length :=
  wordsOf_length a cs

/-- **C7, counterexample.**  Claim C7 asserts
`word_count >= distinct_word_count >= 0` for every constructed analyzer; but
on a remote-URL analyzer `distinct_word_count` is `None` (no integer at all)
while `word_count` is `1`, so the chain fails (in Python, `1 >= None` raises
`TypeError`). -/
theorem C7_url_counterexample :
    mkAnalyzer fsEmpty netAbc ("http://x".toList) .url = some urlAnalyzerAbc ∧
    urlAnalyzerAbc.word_count fsEmpty netAbc = .ok 1 ∧
    urlAnalyzerAbc.distinct_word_count = none :=
  ⟨by decide, by decide, by decide⟩

/-- **C7, amended.**  For every constructed analyzer whose resolved source
kind is inline text or a file path, whenever `word_count` returns a value it
is the whitespace-delimited token count, `distinct_word_count` returns the
number of unique case-folded punctuation-stripped tokens, and
`word_count >= distinct_word_count >= 0` holds. -/
theorem C7_word_count_ge_distinct (fs net : List Char → Option (List Char))
    (a : Analyzer) (h : a.srcType = .text ∨ a.srcType = .path) (wc d : Nat)
    (hwc : a.word_count fs net = .ok wc) (hd : a.distinct_word_count = some d) :
    wc = (splitWs a.origContent).length ∧
    d = (uniqueFirst (a.wordsOf false)).length ∧
    d ≤ wc ∧ 0 ≤ d := by
  have hwc' := word_count_ok fs net a wc hwc
  have hd' : d = (uniqueFirst (a.wordsOf false)).length := by
    unfold Analyzer.distinct_word_count at hd
    rcases h with h | h <;> rw [h] at hd <;> cases hd <;> rfl
  refine ⟨hwc', hd', ?_, Nat.zero_le d⟩
  rw [hwc', hd']
  calc (uniqueFirst (a.wordsOf false)).length
      ≤ (a.wordsOf false).length := length_uniqueFirst_le _
    _ = (splitWs a.origContent).length := wordsOf_length a false

/-- **C7, witness** at the inline text `"a a"`: `word_count = 2`,
`distinct_word_count = 1`, and `2 ≥ 1 ≥ 0`. -/
theorem C7_witness :
    (textAnalyzer ("a a".toList)).srcType = .text ∧
    2 = (splitWs (textAnalyzer ("a a".toList)).origContent).length ∧
    1 = (uniqueFirst ((textAnalyzer ("a a".toList)).wordsOf false)).length ∧
    1 ≤ 2 ∧ 0 ≤ 1 :=
  ⟨rfl, C7_word_count_ge_distinct fsEmpty netEmpty (textAnalyzer ("a a".toList))
    (Or.inl rfl) 2 1 (by decide) (by decide)⟩

/-- **C8.**  With declared kind `'discover'`, the classification applies, in
order: URL-scheme prefix ⇒ remote URL; else recognized text extension or path
separator ⇒ file path; else inline text — and an analyzer constructed with
`'discover'` resolves its `_src_type` to exactly this classification. -/
theorem C8_discover_classification :
    (∀ src : List Char,
      (startsWithL ("http".toList) src = true → discoverKind src = .url) ∧
      (startsWithL ("http".toList) src = false →
        (endsWithL (".txt".toList) src || src.contains '/' || src.contains '\\') = true →
        discoverKind src = .path) ∧
      (startsWithL ("http".toList) src = false →
        (endsWithL (".txt".toList) src || src.contains '/' || src.contains '\\') = false →
        discoverKind src = .text)) ∧
    (∀ (fs net : List Char → Option (List Char)) (src : List Char) (a : Analyzer),
      mkAnalyzer fs net src .discover = some a → a.srcType = discoverKind src) := by
  constructor
  · intro src
    refine ⟨fun h => ?_, fun h1 h2 => ?_, fun h1 h2 => ?_⟩
    · simp only [discoverKind]; rw [h]; simp
    · simp only [discoverKind]; rw [h1, h2]; simp
    · simp only [discoverKind]; rw [h1, h2]; simp
  · intro fs net src a h
    simp only [mkAnalyzer] at h
    cases hk : discoverKind src <;> rw [hk] at h
    · cases h; rfl
    · cases hfs : fs src <;> rw [hfs] at h
      · cases h
      · cases h; rfl
    · cases hnet : net src <;> rw [hnet] at h
      · cases h
      · cases h; rfl

/-- **C8, witness**: `'x.txt'` has no scheme prefix but a `.txt` extension
(⇒ path); `'http://x'` has the scheme prefix (⇒ url); `'hello'` has neither
(⇒ text), and construction with `'discover'` resolves `'hello'` to an
inline-text analyzer. -/
theorem C8_witness :
    discoverKind ("x.txt".toList) = .path ∧
    discoverKind ("http://x".toList) = .url ∧
    discoverKind ("hello".toList) = .text ∧
    (textAnalyzer ("hello".toList)).srcType = discoverKind ("hello".toList) :=
  ⟨(C8_discover_classification.1 ("x.txt".toList)).2.1 (by decide) (by decide),
   (C8_discover_classification.1 ("http://x".toList)).1 (by decide),
   (C8_discover_classification.1 ("hello".toList)).2.2 (by decide) (by decide),
   C8_discover_classification.2 fsEmpty netEmpty ("hello".toList) _ (by decide)⟩

/-- **C9.**  After construction, `reset_content` followed by any statistics
operation gives the same result as that operation immediately after
construction — even if `_content` was overwritten (modelled by an arbitrary
`c`) in between: every statistic is recomputed from `_orig_content`, which
never changes after `__init__`, and `reset_content` only touches `_content`. -/
theorem C9_reset_roundtrip (fs net : List Char → Option (List Char))
    (src : List Char) (dk : DeclaredKind) (a : Analyzer)
    (hmk : mkAnalyzer fs net src dk = some a) (c : List Char) :
    (∀ minlen maxlen count cs,
      ({ a with content := c } : Analyzer).reset_content.common_words minlen maxlen count cs
        = a.common_words minlen maxlen count cs) ∧
    (∀ cs lo,
      ({ a with content := c } : Analyzer).reset_content.char_distribution fs cs lo
        = a.char_distribution fs cs lo) ∧
    ({ a with content := c } : Analyzer).reset_content.word_count fs net
      = a.word_count fs net ∧
    ({ a with content := c } : Analyzer).reset_content.distinct_word_count
      = a.distinct_word_count ∧
    ({ a with content := c } : Analyzer).reset_content.avg_word_length
      = a.avg_word_length ∧
    ({ a with content := c } : Analyzer).reset_content.positivity fs net
      = a.positivity fs net :=
  ⟨fun _ _ _ _ => rfl, fun _ _ => rfl, rfl, rfl, rfl, rfl⟩

/-- **C9, witness** at the inline text `"hi"` with `_content` overwritten by
`"x"` in between. -/
theorem C9_witness :
    ({ textAnalyzer ("hi".toList) with content := "x".toList } : Analyzer).reset_content.common_words
        1 100 10 false
      = (textAnalyzer ("hi".toList)).common_words 1 100 10 false ∧
    ({ textAnalyzer ("hi".toList) with content := "x".toList } : Analyzer).reset_content.distinct_word_count
      = (textAnalyzer ("hi".toList)).distinct_word_count ∧
    ({ textAnalyzer ("hi".toList) with content := "x".toList } : Analyzer).reset_content.avg_word_length
      = (textAnalyzer ("hi".toList)).avg_word_length :=
  have h := C9_reset_roundtrip fsEmpty netEmpty ("hi".toList) .text
    (textAnalyzer ("hi".toList)) (by decide) ("x".toList)
  ⟨h.1 1 100 10 false, h.2.2.2.1, h.2.2.2.2.1⟩

/-- **C10.**  For a constructed remote-URL analyzer, `common_words`,
`char_distribution` and `distinct_word_count` all fall through their
source-kind branches and return `None` without raising, while `word_count` on
the same instance returns the integer token count of the fetched body. -/
theorem C10_url_statistics_none (fs net : List Char → Option (List Char))
    (src body : List Char) (a : Analyzer)
    (hnet : net src = some body)
    (hmk : mkAnalyzer fs net src .url = some a) :
    (∀ minlen maxlen count cs, a.common_words minlen maxlen count cs = none) ∧
    (∀ cs lo, a.char_distribution fs cs lo = .ok none) ∧
    a.distinct_word_count = none ∧
    a.word_count fs net = .ok (splitWs body).length := by
  have ha : a = ⟨src, .url, body, body⟩ := by
    simp only [mkAnalyzer, hnet, Option.map_some'] at hmk
    exact (Option.some.injEq _ _ ▸ hmk).symm
  subst ha
  refine ⟨fun _ _ _ _ => rfl, fun _ _ => rfl, rfl, ?_⟩
  show (match net src with
    | none => Except.error ()
    | some _ => Except.ok (Analyzer.wordsOf _ false).length) = _
  rw [hnet]
  exact congrArg Except.ok (wordsOf_length _ false)

/-- **C10, witness** at `Analyzer('http://x', src_type='url')` over a network
serving body `"abc"`. -/
theorem C10_witness :
    urlAnalyzerAbc.common_words 1 100 10 false = none ∧
    urlAnalyzerAbc.char_distribution fsEmpty false false = .ok none ∧
    urlAnalyzerAbc.distinct_word_count = none ∧
    urlAnalyzerAbc.word_count fsEmpty netAbc = .ok (splitWs ("abc".toList)).length :=
  have h := C10_url_statistics_none fsEmpty netAbc ("http://x".toList) ("abc".toList)
    urlAnalyzerAbc (by decide) (by decide)
  ⟨h.1 1 100 10 false, h.2.1 false false, h.2.2.1, h.2.2.2⟩

/-- **C1, counterexample.**  Claim C1 quantifies over every constructed
analyzer, but the `'path'` branch of `char_distribution` sorts with the
constant key `lambda item: [1]`, so its output stays in first-encountered
order: for the file content `abb` it returns `[('a', 1), ('b', 2)]`, which is
not sorted descending by count. -/
theorem C1_path_sort_counterexample :
    mkAnalyzer fsAbb netEmpty ("f.txt".toList) .path = some pathAnalyzerAbb ∧
    pathAnalyzerAbb.char_distribution fsAbb false false
      = .ok (some [('a', 1), ('b', 2)]) ∧
    ¬ ([('a', 1), ('b', 2)] : List (Char × Nat)).Pairwise countGE :=
  ⟨by decide, by decide, by decide⟩

/-- **C1, amended.**  For every constructed analyzer whose resolved source
kind is inline text, and both flags, `char_distribution` returns the pair list
`charDistText`, which is sorted descending by count, has ties ordered by first
occurrence in the counted character stream, and lists no character twice.
(For file-path analyzers the constant sort key defeats the ordering, and for
remote-URL analyzers the result is `None`.) -/
theorem C1_char_distribution_sorted (fs : List Char → Option (List Char))
    (a : Analyzer) (h : a.srcType = .text) (cs lo : Bool) :
    a.char_distribution fs cs lo = .ok (some (charDistText a cs lo)) ∧
    (charDistText a cs lo).Pairwise countGE ∧
    (charDistText a cs lo).Pairwise (fun p q => p.2 = q.2 →
      idxOf p.1 (charStream a cs lo) < idxOf q.1 (charStream a cs lo)) ∧
    ((charDistText a cs lo).map Prod.fst).Nodup := by
  have hfacts := sortByCountDesc_facts (charStream a cs lo)
  refine ⟨?_, hfacts.1, hfacts.2.2.1, hfacts.2.1⟩
  unfold Analyzer.char_distribution
  rw [h]

/-- **C1, witness** at the inline text `"ABBA"` with both flags `false`. -/
theorem C1_witness :
    (textAnalyzer ("ABBA".toList)).char_distribution fsEmpty false false
      = .ok (some (charDistText (textAnalyzer ("ABBA".toList)) false false)) ∧
    (charDistText (textAnalyzer ("ABBA".toList)) false false).Pairwise countGE ∧
    (charDistText (textAnalyzer ("ABBA".toList)) false false).Pairwise
      (fun p q => p.2 = q.2 →
        idxOf p.1 (charStream (textAnalyzer ("ABBA".toList)) false false)
          < idxOf q.1 (charStream (textAnalyzer ("ABBA".toList)) false false)) ∧
    ((charDistText (textAnalyzer ("ABBA".toList)) false false).map Prod.fst).Nodup :=
  C1_char_distribution_sorted fsEmpty (textAnalyzer ("ABBA".toList)) rfl false false

/-- **C2, counterexample.**  Claim C2 quantifies over every constructed
analyzer, but for a remote-URL analyzer `common_words` falls through every
branch and returns `None` — no entry list at all. -/
theorem C2_url_counterexample :
    mkAnalyzer fsEmpty netAbc ("http://x".toList) .url = some urlAnalyzerAbc ∧
    urlAnalyzerAbc.common_words 1 100 10 false = none ∧
    (urlAnalyzerAbc.common_words 1 100 10 false).isSome = false :=
  ⟨by decide, by decide, by decide⟩

/-- **C2, amended.**  For every constructed analyzer whose resolved source
kind is inline text or file path, and all arguments, `common_words` returns a
list of at most `count` entries, each word's length within
`[minlen, maxlen]`, sorted descending by count.  (For remote-URL analyzers it
returns `None`.) -/
theorem C2_common_words_props (a : Analyzer)
    (h : a.srcType = .text ∨ a.srcType = .path)
    (minlen maxlen count : Nat) (cs : Bool) :
    a.common_words minlen maxlen count cs = some (commonWordsList a minlen maxlen count) ∧
    (commonWordsList a minlen maxlen count).length ≤ count ∧
    (∀ p ∈ commonWordsList a minlen maxlen count,
      minlen ≤ p.1.length ∧ p.1.length ≤ maxlen) ∧
    (commonWordsList a minlen maxlen count).Pairwise countGE := by
  refine ⟨?_, ?_, ?_, ?_⟩
  · rcases h with h | h <;> (unfold Analyzer.common_words; rw [h])
  · unfold commonWordsList
    rw [List.length_map]
    exact (mostCommon_facts count _).1
  · intro p hp
    unfold commonWordsList at hp
    obtain ⟨q, hq, rfl⟩ := List.mem_map.mp hp
    have hkey := (mostCommon_facts count _).2.2 q hq
    have hlen := (List.mem_filter.mp hkey).2
    simp only [Bool.and_eq_true, decide_eq_true_eq] at hlen
    simpa [List.length_map] using hlen
  · unfold commonWordsList
    rw [List.pairwise_map]
    exact (mostCommon_facts count _).2.1

/-- **C2, witness** at the inline text `"aa b aa"` with
`minlen=1, maxlen=100, count=10`: the result is `[('AA', 2), ('B', 1)]`, two
entries, in range, sorted descending, and the entry `('AA', 2)` has length
within `[1, 100]`. -/
theorem C2_witness :
    (textAnalyzer ("aa b aa".toList)).common_words 1 100 10 false
      = some (commonWordsList (textAnalyzer ("aa b aa".toList)) 1 100 10) ∧
    (commonWordsList (textAnalyzer ("aa b aa".toList)) 1 100 10).length ≤ 10 ∧
    (1 ≤ (['A', 'A'] : List Char).length ∧ (['A', 'A'] : List Char).length ≤ 100) ∧
    (commonWordsList (textAnalyzer ("aa b aa".toList)) 1 100 10).Pairwise countGE :=
  have h := C2_common_words_props (textAnalyzer ("aa b aa".toList)) (Or.inl rfl) 1 100 10 false
  ⟨h.1, h.2.1, h.2.2.1 (['A', 'A'], 2) (by decide), h.2.2.2⟩

/-- **C4, counterexample.**  Claim C4 quantifies over every constructed
analyzer, but the `'path'` branch of `char_distribution` inverts the
`letters_only` filter (`letters_only or char.isalpha()`): with
`letters_only=True` over file content `a1`, the non-alphabetic `'1'` is
counted. -/
theorem C4_path_letters_only_counterexample :
    mkAnalyzer fsA1 netEmpty ("f.txt".toList) .path = some pathAnalyzerA1 ∧
    pathAnalyzerA1.char_distribution fsA1 false true
      = .ok (some [('a', 1), ('1', 1)]) ∧
    ('1' : Char).isAlpha = false :=
  ⟨by decide, by decide, by decide⟩

/-- **C4, amended.**  For every constructed analyzer whose resolved source
kind is inline text: `char_distribution` with `letters_only=true` counts only
alphabetic characters, and with `case_sensitive=false` every counted character
is lowercase (`toLower`-fixed); in particular for the inline text `"ABBA"`,
`char_distribution(case_sensitive=false, letters_only=true)` is
`[('a', 2), ('b', 2)]`.  (File-path analyzers invert the `letters_only`
filter, as the counterexample shows.) -/
theorem C4_letters_only_lowercase :
    (∀ (a : Analyzer), a.srcType = .text →
      ∀ (fs : List Char → Option (List Char)) (cs lo : Bool),
        a.char_distribution fs cs lo = .ok (some (charDistText a cs lo)) ∧
        (lo = true → ∀ p ∈ charDistText a cs lo, p.1.isAlpha = true) ∧
        (cs = false → ∀ p ∈ charDistText a cs lo, Char.toLower p.1 = p.1)) ∧
    (textAnalyzer ("ABBA".toList)).char_distribution fsEmpty false true
      = .ok (some [('a', 2), ('b', 2)]) := by
  constructor
  · intro a h fs cs lo
    refine ⟨?_, ?_, ?_⟩
    · unfold Analyzer.char_distribution
      rw [h]
    · rintro rfl p hp
      have hkey := (sortByCountDesc_facts (charStream a cs true)).2.2.2 p hp
      have hpred := (List.mem_filter.mp hkey).2
      simpa using hpred
    · rintro rfl p hp
      have hkey := (sortByCountDesc_facts (charStream a false lo)).2.2.2 p hp
      have hmem := (List.mem_filter.mp hkey).1
      obtain ⟨c, _, hc⟩ := List.mem_map.mp hmem
      rw [← hc]
      exact toLower_toLower c
  · decide

/-- **C4, witness** at the inline text `"ABBA"` with `case_sensitive=false`,
`letters_only=true`: the result is returned, every counted character `'a'`,
`'b'` is alphabetic and lowercase. -/
theorem C4_witness :
    (textAnalyzer ("ABBA".toList)).char_distribution fsEmpty false true
      = .ok (some (charDistText (textAnalyzer ("ABBA".toList)) false true)) ∧
    ('a', 2) ∈ charDistText (textAnalyzer ("ABBA".toList)) false true ∧
    (('a', 2).1.isAlpha = true) ∧
    (Char.toLower ('a', 2).1 = ('a', 2).1) :=
  have h := C4_letters_only_lowercase.1 (textAnalyzer ("ABBA".toList)) rfl fsEmpty false true
  ⟨h.1, by decide, h.2.1 rfl ('a', 2) (by decide), h.2.2 rfl ('a', 2) (by decide)⟩

/-- **C5.**  For every constructed analyzer, whenever the two lexicon files
are readable, their (case-folded, whitespace-split) word sets are disjoint,
and `word_count` returns `wc`: `wc` is the unfiltered whitespace-delimited
token count, `positivity` equals
`(#tokens in the positive lexicon − #tokens in the negative lexicon) / wc × 1000`,
it is `0` when `wc = 0`, and it is `0` whenever the two token counts are
equal. -/
theorem C5_positivity_formula (fs net : List Char → Option (List Char))
    (a : Analyzer) (posRaw negRaw : List Char)
    (hpos : fs posListPath = some posRaw) (hneg : fs negListPath = some negRaw)
    (hdisj : ∀ w ∈ splitWs (posRaw.map Char.toLower), w ∉ splitWs (negRaw.map Char.toLower))
    (wc : Nat) (hwc : a.word_count fs net = .ok wc) :
    wc = (splitWs a.origContent).length ∧
    a.positivity fs net = .ok (if 0 < wc then
        (((a.wordsOf false).countP
            (fun w => decide (w ∈ splitWs (posRaw.map Char.toLower))) : ℚ)
          - ((a.wordsOf false).countP
              (fun w => decide (w ∈ splitWs (negRaw.map Char.toLower))) : ℚ))
          / (wc : ℚ) * 1000
      else 0) ∧
    (wc = 0 → a.positivity fs net = .ok 0) ∧
    ((a.wordsOf false).countP (fun w => decide (w ∈ splitWs (posRaw.map Char.toLower)))
        = (a.wordsOf false).countP (fun w => decide (w ∈ splitWs (negRaw.map Char.toLower)))
      → a.positivity fs net = .ok 0) := by
  have hwc' := word_count_ok fs net a wc hwc
  have hmain : a.positivity fs net = .ok (if 0 < wc then
      (((a.wordsOf false).countP
          (fun w => decide (w ∈ splitWs (posRaw.map Char.toLower))) : ℚ)
        - ((a.wordsOf false).countP
            (fun w => decide (w ∈ splitWs (negRaw.map Char.toLower))) : ℚ))
        / (wc : ℚ) * 1000
    else 0) := by
    unfold Analyzer.positivity
    rw [hpos, hneg]
    dsimp only
    rw [positivity_words_eq a, tally_eq_counts _ _ hdisj (a.wordsOf false), hwc]
    dsimp only
    congr 1
    split
    · push_cast
      ring
    · rfl
  refine ⟨hwc', hmain, fun hz => ?_, fun heq => ?_⟩
  · rw [hmain, hz]
    rfl
  · rw [hmain, heq]
    simp

/-- **C5, witness** at the inline text `"good bad ok"` with the positive
lexicon `good` and the negative lexicon `bad`: `word_count = 3`, one positive
and one negative token, so `positivity = 0`. -/
theorem C5_witness :
    3 = (splitWs (textAnalyzer ("good bad ok".toList)).origContent).length ∧
    (textAnalyzer ("good bad ok".toList)).positivity fsLex netEmpty = .ok 0 :=
  have h := C5_positivity_formula fsLex netEmpty (textAnalyzer ("good bad ok".toList))
    ("good".toList) ("bad".toList) (by decide) (by decide) (by decide) 3 (by decide)
  ⟨h.1, h.2.2.2 (by decide)⟩

/-- **C6, counterexample.**  Claim C6 quantifies over every constructed
analyzer, but for a remote-URL analyzer `avg_word_length` falls through both
branches and returns `0.0` even though the document's tokens have mean
length 3. -/
theorem C6_url_counterexample :
    mkAnalyzer fsEmpty netAbc ("http://x".toList) .url = some urlAnalyzerAbc ∧
    urlAnalyzerAbc.avg_word_length = 0 ∧
    ((urlAnalyzerAbc.wordsOf false).map (fun w => (w.length : ℚ))).sum
        / ((urlAnalyzerAbc.wordsOf false).length : ℚ) = 3 := by
  refine ⟨by decide, rfl, ?_⟩
  have hw : urlAnalyzerAbc.wordsOf false = [['a', 'b', 'c']] := by decide
  rw [hw]
  norm_num

/-- **C6, amended.**  For every constructed analyzer whose resolved source
kind is inline text or file path, `avg_word_length` is the mean of the token
character counts rounded to two decimal places, it is exactly `0.0` for a
document with no tokens, and for the inline text `"a bb ccc"` it equals
`2.0`.  (For remote-URL analyzers it is `0.0` regardless of the content, as
the counterexample shows.) -/
theorem C6_avg_word_length (a : Analyzer)
    (h : a.srcType = .text ∨ a.srcType = .path) :
    (a.wordsOf false ≠ [] →
      a.avg_word_length
        = round2 (((a.wordsOf false).map (fun w => (w.length : ℚ))).sum
            / ((a.wordsOf false).length : ℚ))) ∧
    (a.wordsOf false = [] → a.avg_word_length = 0) ∧
    (textAnalyzer ("a bb ccc".toList)).avg_word_length = 2 := by
  have hgen : ∀ (b : Analyzer), b.srcType = .text ∨ b.srcType = .path →
      (b.wordsOf false ≠ [] →
        b.avg_word_length
          = round2 (((b.wordsOf false).map (fun w => (w.length : ℚ))).sum
              / ((b.wordsOf false).length : ℚ))) ∧
      (b.wordsOf false = [] → b.avg_word_length = 0) := by
    intro b hb
    constructor
    · intro hne
      unfold Analyzer.avg_word_length
      rcases hb with hb | hb <;> rw [hb] <;>
        rw [if_neg (by simpa [List.isEmpty_iff] using hne)]
    · intro he
      unfold Analyzer.avg_word_length
      rcases hb with hb | hb <;> rw [hb] <;>
        rw [if_pos (by simpa [List.isEmpty_iff] using he)]
  refine ⟨(hgen a h).1, (hgen a h).2, ?_⟩
  have hw : (textAnalyzer ("a bb ccc".toList)).wordsOf false
      = [['a'], ['b', 'b'], ['c', 'c', 'c']] := by decide
  have hval := (hgen (textAnalyzer ("a bb ccc".toList)) (Or.inl rfl)).1
    (by rw [hw]; exact List.cons_ne_nil _ _)
  rw [hval, hw]
  have hmean : ((([['a'], ['b', 'b'], ['c', 'c', 'c']] : List (List Char)).map
      (fun w => (w.length : ℚ))).sum
        / (([['a'], ['b', 'b'], ['c', 'c', 'c']] : List (List Char)).length : ℚ)) = 2 := by
    norm_num
  rw [hmean]
  unfold round2
  rw [show Rat.floor ((2 : ℚ) * 100 + 1 / 2) = ⌊((2 : ℚ) * 100 + 1 / 2)⌋ from rfl]
  have hfloor : (⌊((2 : ℚ) * 100 + 1 / 2)⌋ : ℤ) = 200 := by
    norm_num [Int.floor_eq_iff]
  rw [hfloor]
  norm_num

/-- **C6, witness**: the empty inline document has `avg_word_length = 0.0`,
and `"a bb ccc"` has `avg_word_length = 2.0`. -/
theorem C6_witness :
    (textAnalyzer []).avg_word_length = 0 ∧
    (textAnalyzer ("a bb ccc".toList)).avg_word_length = 2 :=
  ⟨(C6_avg_word_length (textAnalyzer []) (Or.inl rfl)).2.1 (by decide),
   (C6_avg_word_length (textAnalyzer ("a bb ccc".toList)) (Or.inl rfl)).2.2⟩

end FCA
